import Mathlib

/-!
Verification of the go-spew dump/format engine specification.

The repository's visible sources are the public-API test fixtures
(`spew_test`), the package-level convenience wrappers (`spew.go`), a
benchmark, and an example program.  The core engine (kind classification,
cycle/depth tracking, capability dispatch, the Dump and Format renderers)
is described by the specification and exercised byte-for-byte by the test
fixtures.  The engine below is modelled from the spec, with the test
fixtures as the authority for exact output; Go values are embedded as an
inductive `GoVal`, pointers go through an explicit `Heap`, and both
renderers take an explicit fuel so that every definition is executable and
kernel-reducible.
-/

/-- Receiver kind of a custom-rendering capability (value or pointer receiver). -/
inductive RecvKind where
  | value
  | pointer
deriving DecidableEq

/-- Modelled from the spec: shallow embedding of a Go runtime value as seen by
the engine's Kind Classifier.  Scalars carry their declared type name and the
host's canonical literal spelling (floats/complex carry the spelling itself,
since only its placement matters to the engine).  Pointers are references into
an explicit heap by numeric identity.  `vStringer` / `vError` are named types
exposing the generic stringification capability resp. the error capability,
with the given receiver kind, capability output, and underlying value. -/
inductive GoVal where
  | vBool (b : Bool)
  | vInt (t : String) (n : Int)
  | vUInt (t : String) (n : Nat)
  | vFloat (t : String) (lit : String)
  | vComplex (t : String) (lit : String)
  | vString (s : String)
  | vSlice (elemT : String) (capacity : Nat) (elems : List GoVal)
  | vArray (elemT : String) (elems : List GoVal)
  | vMap (keyT : String) (valT : String) (entries : List (GoVal × GoVal))
  | vStruct (t : String) (fields : List (String × GoVal))
  | vPtr (t : String) (addr : Nat)
  | vNilPtr (t : String)
  | vStringer (t : String) (recv : RecvKind) (out : String) (under : GoVal)
  | vError (t : String) (recv : RecvKind) (out : String) (under : GoVal)

/-- A heap mapping reference identities to values (pointer targets). -/
abbrev Heap := List (Nat × GoVal)

/-- First heap entry with the given identity, if any. -/
def lookupHeap : Heap → Nat → Option GoVal
  | [], _ => none
  | (a, hv) :: t, x => if a = x then some hv else lookupHeap t x

mutual
/-- Structural measure of a value: counts constructors of the value tree and
ignores embedded strings and numbers, so it bounds the recursion depth of the
renderers independently of payloads. -/
def msize : GoVal → Nat
  | .vSlice _ _ es => 1 + msizeL es
  | .vArray _ es => 1 + msizeL es
  | .vMap _ _ ps => 1 + msizeP ps
  | .vStruct _ fs => 1 + msizeF fs
  | .vStringer _ _ _ u => 1 + msize u
  | .vError _ _ _ u => 1 + msize u
  | _ => 1

/-- Measure of a list of element values. -/
def msizeL : List GoVal → Nat
  | [] => 0
  | v :: vs => 1 + msize v + msizeL vs

/-- Measure of a list of map entries. -/
def msizeP : List (GoVal × GoVal) → Nat
  | [] => 0
  | (a, b) :: ps => 1 + msize a + msize b + msizeP ps

/-- Measure of a list of struct fields. -/
def msizeF : List (String × GoVal) → Nat
  | [] => 0
  | (_, b) :: fs => 1 + msize b + msizeF fs
end

/-- Modelled from the spec: the immutable Configuration options bag.  The
zero value mirrors Go's zero `Config`; `clean` selects the minimal bracketed
style of the clean preset. -/
structure Config where
  indent : String := ""
  maxDepth : Nat := 0
  disableMethods : Bool := false
  disablePointerMethods : Bool := false
  continueOnMethod : Bool := false
  disablePointerAddresses : Bool := false
  disableCapacities : Bool := false
  quoteStrings : Bool := false
  trailingCommas : Bool := false
  clean : Bool := false

/-- The default preset (`spew.NewDefaultConfig`): indent one space. -/
def defaultConfig : Config := { indent := " " }

/-- The clean preset (`spew.CleanConfig`): two-space indent, minimal bracketed
style with no type annotations, quoted strings, no pointer addresses. -/
def CleanConfig : Config :=
  { indent := "  ", disablePointerAddresses := true, quoteStrings := true, clean := true }

/-- Config used by the fixtures with all methods disabled. -/
def cfgNoMethods : Config := { indent := " ", disableMethods := true }

/-- Config used by the fixtures with pointer-receiver methods disabled. -/
def cfgNoPmethods : Config := { indent := " ", disablePointerMethods := true }

/-- Config used by the fixtures with a maximum depth of 1. -/
def cfgMaxDepth : Config := { indent := " ", maxDepth := 1 }

/-- Config used by the fixtures with continue-on-method requested. -/
def cfgContinue : Config := { indent := " ", continueOnMethod := true }

/-- Config used by the fixtures with pointer addresses suppressed. -/
def cfgNoPtrAddr : Config := { disablePointerAddresses := true }

/-- Config used by the fixtures with capacity annotations suppressed. -/
def cfgNoCap : Config := { disableCapacities := true }

/-- Config used by the fixtures with string quoting enabled. -/
def cfgQuotes : Config := { quoteStrings := true }

/-- Declared type name of a value, as spelled in dump/format type annotations. -/
def typeName : GoVal → String
  | .vBool _ => "bool"
  | .vInt t _ => t
  | .vUInt t _ => t
  | .vFloat t _ => t
  | .vComplex t _ => t
  | .vString _ => "string"
  | .vSlice t _ _ => "[]" ++ t
  | .vArray t es => "[" ++ toString es.length ++ "]" ++ t
  | .vMap k v _ => "map[" ++ k ++ "]" ++ v
  | .vStruct t _ => t
  | .vPtr t _ => t
  | .vNilPtr t => t
  | .vStringer t _ _ _ => t
  | .vError t _ _ _ => t

/-- Length of a value where Go's built-in `len` applies, else 0. -/
def lenOf : GoVal → Nat
  | .vString s => s.length
  | .vSlice _ _ es => es.length
  | .vArray _ es => es.length
  | .vMap _ _ ps => ps.length
  | _ => 0

/-- Capacity of a value where Go's built-in `cap` applies, else 0. -/
def capOf : GoVal → Nat
  | .vSlice _ c _ => c
  | .vArray _ es => es.length
  | _ => 0

/-- Canonical literal spelling of a scalar value. -/
def scalarLit : GoVal → String
  | .vBool b => if b then "true" else "false"
  | .vInt _ n => toString n
  | .vUInt _ n => toString n
  | .vFloat _ l => l
  | .vComplex _ l => l
  | _ => ""

/-- Whether a value is one of the scalar kinds (integer, unsigned integer,
float, boolean, complex). -/
def isScalar : GoVal → Bool
  | .vBool _ => true
  | .vInt _ _ => true
  | .vUInt _ _ => true
  | .vFloat _ _ => true
  | .vComplex _ _ => true
  | _ => false

/-- Go-style quoting of a string (the fixture strings need no escapes). -/
def quoteStr (s : String) : String := "\"" ++ s ++ "\""

/-- Boolean literal spelling. -/
def boolLit (b : Bool) : String := if b then "true" else "false"

/-- The indent string repeated `n` times. -/
def indentN (ind : String) : Nat → String
  | 0 => ""
  | n + 1 => ind ++ indentN ind n

/-- Hexadecimal rendering of a pointer identity. -/
def hexAddr (a : Nat) : String := "0x" ++ String.mk (Nat.toDigits 16 a)

/-- The `(len=N cap=M)` size annotation of the Dump renderer: the length part
appears when the length is nonzero, the capacity part when capacities are not
suppressed and the capacity is nonzero; when neither part appears the
annotation is empty.  A trailing space separates it from what follows. -/
def lenCapAnn (cfg : Config) (len cap : Nat) : String :=
  if len = 0 ∧ (cfg.disableCapacities = true ∨ cap = 0) then ""
  else
    "(" ++ (if len ≠ 0 then "len=" ++ toString len else "") ++
    (if len ≠ 0 ∧ cfg.disableCapacities = false ∧ cap ≠ 0 then " " else "") ++
    (if cfg.disableCapacities = false ∧ cap ≠ 0 then "cap=" ++ toString cap else "") ++
    ") "

/-- Rendering modes inside the Dump renderer: `full` emits type and size
annotations, `inner` (after following a pointer) omits the type annotation,
`body` (structural part after a capability) omits both. -/
inductive DMode where
  | full
  | inner
  | body
deriving DecidableEq

/-- Type/size annotation prefix of a dumped value, per mode and clean style. -/
def dPre (cfg : Config) (md : DMode) (v : GoVal) : String :=
  (if md = DMode.full ∧ cfg.clean = false then "(" ++ typeName v ++ ") " else "") ++
  (if md ≠ DMode.body ∧ cfg.clean = false then lenCapAnn cfg (lenOf v) (capOf v) else "")

/-- Whether entering one more level would exceed the configured maximum depth. -/
def maxExceeded (cfg : Config) (depth : Nat) : Bool :=
  decide (cfg.maxDepth ≠ 0 ∧ cfg.maxDepth < depth + 1)

/-- Join pre-rendered child lines: each line is indented and newline-terminated,
with a comma after every line but the last (after the last too under trailing
commas). -/
def joinItems (ind : String) (trailing : Bool) : List String → String
  | [] => ""
  | [x] => ind ++ x ++ (if trailing then "," else "") ++ "\n"
  | x :: xs => ind ++ x ++ ",\n" ++ joinItems ind trailing xs

/-- The Dump renderer's depth-truncation marker. -/
def dumpDepthMarker : String := "<max depth reached>"

/-- The Dump renderer's back-reference marker for a re-entered identity. -/
def dumpCycleMarker : String := "<already shown>"

/-- The Format renderer's depth-truncation marker. -/
def fmtDepthMarker : String := "<max>"

/-- The Format renderer's back-reference marker for a re-entered identity. -/
def fmtCycleMarker : String := "<shown>"

/-- Brace block of the Dump renderer: children one per line between braces;
`none` means the depth limit was exceeded and the truncation marker is emitted
in place of the children. -/
def braceBlock (cfg : Config) (depth : Nat) (items : Option (List String)) : String :=
  match items with
  | none =>
      "\x7b\n" ++ indentN cfg.indent (depth + 1) ++ dumpDepthMarker ++ "\n" ++
      indentN cfg.indent depth ++ "\x7d"
  | some l =>
      "\x7b\n" ++ joinItems (indentN cfg.indent (depth + 1)) cfg.trailingCommas l ++
      indentN cfg.indent depth ++ "\x7d"

/-- Bracket block of the clean style: `[]` when empty, else children one per
line between brackets, subject to the same depth truncation. -/
def cleanBlock (cfg : Config) (depth : Nat) (items : Option (List String)) : String :=
  match items with
  | none =>
      "[\n" ++ indentN cfg.indent (depth + 1) ++ dumpDepthMarker ++ "\n" ++
      indentN cfg.indent depth ++ "]"
  | some [] => "[]"
  | some l =>
      "[\n" ++ joinItems (indentN cfg.indent (depth + 1)) cfg.trailingCommas l ++
      indentN cfg.indent depth ++ "]"

/-- Sequence/mapping block of the Dump renderer: clean style uses brackets and
drops the annotation prefix, otherwise the annotated brace block is used. -/
def dumpSeq (cfg : Config) (depth : Nat) (pre : String) (items : Option (List String)) :
    String :=
  if cfg.clean then cleanBlock cfg depth items else pre ++ braceBlock cfg depth items

/-- Pointer wrapper of the Dump renderer: type annotation, numeric address
unless suppressed, then the dereferenced rendering in parentheses; the clean
style keeps only the dereferenced rendering. -/
def dumpPtrWrap (cfg : Config) (t : String) (a : Nat) (inner : String) : String :=
  if cfg.clean then inner
  else
    "(" ++ t ++ ")" ++
    (if cfg.disablePointerAddresses then "" else "(" ++ hexAddr a ++ ")") ++
    "(" ++ inner ++ ")"

/-- Capability dispatch for the Dump renderer on a bare value: a capability is
used unless all methods are disabled; a pointer-receiver capability applies
only through a reference (mode `inner`), never to a bare non-addressable
value. -/
def canUseMeth (cfg : Config) (md : DMode) (r : RecvKind) : Bool :=
  !cfg.disableMethods && (decide (r = RecvKind.value) || decide (md = DMode.inner))

/-- Annotation prefix of a value with a capability: type name per mode, then
the size annotation of the underlying value. -/
def methPre (cfg : Config) (md : DMode) (t : String) (u : GoVal) : String :=
  (if md = DMode.full ∧ cfg.clean = false then "(" ++ t ++ ") " else "") ++
  (if md ≠ DMode.body ∧ cfg.clean = false then lenCapAnn cfg (lenOf u) (capOf u) else "")

/-- Combine capability output with structural rendering in the Dump renderer:
under continue-on-method the capability output is wrapped in parentheses and
followed by the structural rendering; otherwise it replaces it (quoted when
string quoting is on); when the capability is not used only the structural
rendering appears. -/
def methWrap (cfg : Config) (pre out : String) (used : Bool) (structuralStr : String) :
    String :=
  if used then
    if cfg.continueOnMethod then pre ++ "(" ++ out ++ ") " ++ structuralStr
    else pre ++ (if cfg.quoteStrings then quoteStr out else out)
  else pre ++ structuralStr

/-- Modelled from the spec: the Dump renderer.  Multi-line, indented, type- and
size-annotated rendering of a value tree; follows pointers through the heap
with a call-scoped visited list (stack discipline — the list extends only
downward); truncates on a re-entered identity and on the configured maximum
depth.  `fuel` bounds the recursion depth and is given a sufficient value by
`Sdump`. -/
def dumpF : Nat → Config → Heap → List Nat → Nat → DMode → GoVal → String
  | 0, _, _, _, _, _, _ => "<fuel>"
  | Nat.succ n, cfg, heap, vis, depth, md, v =>
    match v with
    | GoVal.vBool b => dPre cfg md (GoVal.vBool b) ++ boolLit b
    | GoVal.vInt t i => dPre cfg md (GoVal.vInt t i) ++ toString i
    | GoVal.vUInt t u => dPre cfg md (GoVal.vUInt t u) ++ toString u
    | GoVal.vFloat t l => dPre cfg md (GoVal.vFloat t l) ++ l
    | GoVal.vComplex t l => dPre cfg md (GoVal.vComplex t l) ++ l
    | GoVal.vString s => dPre cfg md (GoVal.vString s) ++ quoteStr s
    | GoVal.vSlice t c es =>
        dumpSeq cfg depth (dPre cfg md (GoVal.vSlice t c es))
          (if maxExceeded cfg depth then none else
            some (es.map (fun e => dumpF n cfg heap vis (depth + 1) DMode.full e)))
    | GoVal.vArray t es =>
        dumpSeq cfg depth (dPre cfg md (GoVal.vArray t es))
          (if maxExceeded cfg depth then none else
            some (es.map (fun e => dumpF n cfg heap vis (depth + 1) DMode.full e)))
    | GoVal.vMap kt vt ps =>
        dumpSeq cfg depth (dPre cfg md (GoVal.vMap kt vt ps))
          (if maxExceeded cfg depth then none else
            some (ps.map (fun p =>
              dumpF n cfg heap vis (depth + 1) DMode.full p.1 ++ ": " ++
              dumpF n cfg heap vis (depth + 1) DMode.full p.2)))
    | GoVal.vStruct t fs =>
        (if cfg.clean then "" else dPre cfg md (GoVal.vStruct t fs)) ++
        braceBlock cfg depth
          (if maxExceeded cfg depth then none else
            some (fs.map (fun f =>
              f.1 ++ ": " ++ dumpF n cfg heap vis (depth + 1) DMode.full f.2)))
    | GoVal.vPtr t a =>
        dumpPtrWrap cfg t a
          (if a ∈ vis then dumpCycleMarker
           else
             match lookupHeap heap a with
             | some hv => dumpF n cfg heap (a :: vis) depth DMode.inner hv
             | none => "<nil>")
    | GoVal.vNilPtr t => if cfg.clean then "<nil>" else "(" ++ t ++ ")(<nil>)"
    | GoVal.vStringer t r out u =>
        methWrap cfg (methPre cfg md t u) out (canUseMeth cfg md r)
          (dumpF n cfg heap vis depth DMode.body u)
    | GoVal.vError t r out u =>
        methWrap cfg (methPre cfg md t u) out (canUseMeth cfg md r)
          (dumpF n cfg heap vis depth DMode.body u)

/-- Display verb of the Format renderer: the `%v` family with optional `+`
and `#` flags. -/
structure FmtVerb where
  plus : Bool := false
  hash : Bool := false

/-- The plain `%v` verb. -/
def plainVerb : FmtVerb := {}

/-- The `%#v` verb. -/
def hashVerb : FmtVerb := { hash := true }

/-- Parenthesized type prefix of the Format renderer under the `#` flag. -/
def fPre (vb : FmtVerb) (v : GoVal) : String :=
  if vb.hash then "(" ++ typeName v ++ ")" else ""

/-- Element separator of the Format renderer: comma in clean style, else space. -/
def fSep (cfg : Config) : String := if cfg.clean then "," else " "

/-- Body of an aggregate in the Format renderer: the depth-truncation marker
when the limit is exceeded, else the separated children. -/
def fBody (sep : String) (items : Option (List String)) : String :=
  match items with
  | none => fmtDepthMarker
  | some l => String.intercalate sep l

/-- Capability dispatch for the Format renderer: as for Dump, with `viaPtr`
meaning the value was reached through a reference. -/
def canUseFmt (cfg : Config) (viaPtr : Bool) (r : RecvKind) : Bool :=
  !cfg.disableMethods && (decide (r = RecvKind.value) || viaPtr)

/-- Combine capability output with structural rendering in the Format
renderer. -/
def fmtMethWrap (cfg : Config) (pre out : String) (used : Bool)
    (structuralStr : String) : String :=
  if used then
    if cfg.continueOnMethod then "(" ++ out ++ ") " ++ structuralStr
    else pre ++ (if cfg.quoteStrings then quoteStr out else out)
  else structuralStr

/-- Modelled from the spec: the Format renderer.  Single-line rendering driven
by a display verb; `<*>` marks each pointer indirection; braces for structs,
brackets for sequences, `map[...]` for mappings; same cycle and depth
truncation as Dump with the short markers. -/
def formatF : Nat → Config → FmtVerb → Heap → List Nat → Nat → Bool → GoVal → String
  | 0, _, _, _, _, _, _, _ => "<fuel>"
  | Nat.succ n, cfg, vb, heap, vis, depth, vp, v =>
    match v with
    | GoVal.vBool b => fPre vb (GoVal.vBool b) ++ boolLit b
    | GoVal.vInt t i => fPre vb (GoVal.vInt t i) ++ toString i
    | GoVal.vUInt t u => fPre vb (GoVal.vUInt t u) ++ toString u
    | GoVal.vFloat t l => fPre vb (GoVal.vFloat t l) ++ l
    | GoVal.vComplex t l => fPre vb (GoVal.vComplex t l) ++ l
    | GoVal.vString s =>
        fPre vb (GoVal.vString s) ++ (if cfg.quoteStrings then quoteStr s else s)
    | GoVal.vSlice t c es =>
        fPre vb (GoVal.vSlice t c es) ++ "[" ++
        fBody (fSep cfg)
          (if maxExceeded cfg depth then none else
            some (es.map (fun e => formatF n cfg vb heap vis (depth + 1) false e))) ++
        "]"
    | GoVal.vArray t es =>
        fPre vb (GoVal.vArray t es) ++ "[" ++
        fBody (fSep cfg)
          (if maxExceeded cfg depth then none else
            some (es.map (fun e => formatF n cfg vb heap vis (depth + 1) false e))) ++
        "]"
    | GoVal.vMap kt vt ps =>
        fPre vb (GoVal.vMap kt vt ps) ++ "map[" ++
        fBody (fSep cfg)
          (if maxExceeded cfg depth then none else
            some (ps.map (fun p =>
              formatF n cfg vb heap vis (depth + 1) false p.1 ++ ":" ++
              formatF n cfg vb heap vis (depth + 1) false p.2))) ++
        "]"
    | GoVal.vStruct t fs =>
        fPre vb (GoVal.vStruct t fs) ++ "\x7b" ++
        fBody (fSep cfg)
          (if maxExceeded cfg depth then none else
            some (fs.map (fun f =>
              (if vb.plus || vb.hash then f.1 ++ ":" else "") ++
              formatF n cfg vb heap vis (depth + 1) false f.2))) ++
        "\x7d"
    | GoVal.vPtr _ a =>
        "<*>" ++
        (if a ∈ vis then fmtCycleMarker
         else
           match lookupHeap heap a with
           | some hv => formatF n cfg vb heap (a :: vis) depth true hv
           | none => "<nil>")
    | GoVal.vNilPtr _ => "<nil>"
    | GoVal.vStringer t r out u =>
        fmtMethWrap cfg (fPre vb (GoVal.vStringer t r out u)) out (canUseFmt cfg vp r)
          (formatF n cfg vb heap vis depth false u)
    | GoVal.vError t r out u =>
        fmtMethWrap cfg (fPre vb (GoVal.vError t r out u)) out (canUseFmt cfg vp r)
          (formatF n cfg vb heap vis depth false u)

/-- Remaining-heap part of the termination measure: total measure of the heap
entries whose identity is not yet on the visited stack. -/
def heapRest : Heap → List Nat → Nat
  | [], _ => 0
  | (a, hv) :: t, vis => (if a ∈ vis then 0 else 1 + msize hv) + heapRest t vis

/-- Fuel sufficient for a whole top-level rendering call. -/
def topFuel (heap : Heap) (v : GoVal) : Nat := msize v + heapRest heap [] + 1

/-- `Sdump`: top-level Dump entry point; fresh visited stack and zero depth,
trailing newline. -/
def Sdump (cfg : Config) (heap : Heap) (v : GoVal) : String :=
  dumpF (topFuel heap v) cfg heap [] 0 DMode.full v ++ "\n"

/-- `Sprint` on a single value: top-level Format entry point with the plain
verb. -/
def SprintV (cfg : Config) (heap : Heap) (v : GoVal) : String :=
  formatF (topFuel heap v) cfg plainVerb heap [] 0 false v

/-- `Sprintln` on a single value. -/
def SprintlnV (cfg : Config) (heap : Heap) (v : GoVal) : String :=
  SprintV cfg heap v ++ "\n"

/-- Whether `pat` occurs in `l` (character-list substring search). -/
def listPrefixOf : List Char → List Char → Bool
  | [], _ => true
  | _ :: _, [] => false
  | a :: as, b :: bs => a == b && listPrefixOf as bs

/-- Whether `pat` occurs anywhere in `l`. -/
def listContains (pat : List Char) : List Char → Bool
  | [] => pat.isEmpty
  | c :: cs => listPrefixOf pat (c :: cs) || listContains pat cs

/-- Whether `pat` occurs as a substring of `s` (executable). -/
def containsSub (s pat : String) : Bool := listContains pat.data s.data

/-- An adapter value as returned by `NewFormatter`: it carries the
configuration and the wrapped value, and renders through the Format renderer
when the host formatting facility hands it a verb. -/
structure FormatterArg where
  cfg : Config
  heap : Heap
  val : GoVal

/-- `NewFormatter`: wrap a value for the host formatting facility. -/
def NewFormatter (cfg : Config) (heap : Heap) (v : GoVal) : FormatterArg :=
  ⟨cfg, heap, v⟩

/-- `convertArgs` (from `spew.go` callers): wrap every argument with a
Formatter for the given configuration. -/
def convertArgs (cfg : Config) (heap : Heap) (l : List GoVal) : List FormatterArg :=
  l.map (fun v => NewFormatter cfg heap v)

/-- Render one wrapped argument under a verb, as the host facility does when
it reaches a verb in the format string. -/
def renderArg (vb : FmtVerb) (a : FormatterArg) : String :=
  formatF (topFuel a.heap a.val) a.cfg vb a.heap [] 0 false a.val

/-- Modelled from the spec: the host printf-style formatting facility
(`fmt.Sprintf`), restricted to the `%v` verb family the engine supports, with
the host's own fallback text for other verbs.  Literal text is copied;
each verb consumes one wrapped argument. -/
def hostAux : List Char → Bool → FmtVerb → List FormatterArg → String
  | [], _, _, _ => ""
  | c :: rest, false, vb, args =>
      if c = '%' then hostAux rest true {} args
      else String.singleton c ++ hostAux rest false vb args
  | c :: rest, true, vb, args =>
      if c = '#' then hostAux rest true { vb with hash := true } args
      else if c = '+' then hostAux rest true { vb with plus := true } args
      else if c = 'v' then
        match args with
        | a :: rest2 => renderArg vb a ++ hostAux rest false {} rest2
        | [] => "%!v(MISSING)" ++ hostAux rest false {} []
      else if c = '%' then "%" ++ hostAux rest false {} args
      else "%!" ++ String.singleton c ++ hostAux rest false {} args

/-- The host facility's string-formatting entry point. -/
def hostSprintf (f : String) (args : List FormatterArg) : String :=
  hostAux f.data false {} args

/-- A host error value; `fmt.Errorf` never returns a nil error. -/
structure GoError where
  msg : String

/-- Modelled from the spec: the host `fmt.Errorf`, which formats exactly as
`fmt.Sprintf` does and wraps the result in a non-nil error value. -/
def hostErrorf (f : String) (args : List FormatterArg) : Option GoError :=
  some ⟨hostSprintf f args⟩

/-- `Errorf` (from `spew.go`): forward to the host `fmt.Errorf` with every
argument wrapped by `convertArgs`. -/
def Errorf (cfg : Config) (heap : Heap) (f : String) (a : List GoVal) : Option GoError :=
  hostErrorf f (convertArgs cfg heap a)

/-- `Sprintf` (from `spew.go`): forward to the host `fmt.Sprintf` with every
argument wrapped by `convertArgs`. -/
def Sprintf (cfg : Config) (heap : Heap) (f : String) (a : List GoVal) : String :=
  hostSprintf f (convertArgs cfg heap a)

/-- The engine state a call could conceivably leave behind: a visited stack
and a depth counter. -/
structure EngineState where
  visited : List Nat
  depth : Nat

/-- The fresh per-call state: empty visited stack, zero depth. -/
def freshState : EngineState := ⟨[], 0⟩

/-- Modelled from the spec: a top-level `Sdump` call observed together with
engine state.  Per the spec, each top-level call creates a fresh Visited Set
and Depth Counter (ignoring whatever state `s` an earlier call might have
left) and leaves no persistent state behind. -/
def SdumpCall (_s : EngineState) (cfg : Config) (heap : Heap) (v : GoVal) :
    String × EngineState :=
  (dumpF (topFuel heap v) cfg heap freshState.visited freshState.depth DMode.full v ++ "\n",
   freshState)

/-- Modelled from the spec: a top-level `Sprint` call observed together with
engine state, as for `SdumpCall`. -/
def SprintCall (_s : EngineState) (cfg : Config) (heap : Heap) (v : GoVal) :
    String × EngineState :=
  (formatF (topFuel heap v) cfg plainVerb heap freshState.visited freshState.depth false v,
   freshState)

/-- Fixture value `ts`: a named string type with a value-receiver `String`
method returning "stringer test". -/
def ts : GoVal :=
  GoVal.vStringer "spew_test.stringer" RecvKind.value "stringer test" (GoVal.vString "test")

/-- Fixture value `tps`: a named string type whose `String` method has a
pointer receiver. -/
def tps : GoVal :=
  GoVal.vStringer "spew_test.pstringer" RecvKind.pointer "stringer test" (GoVal.vString "test")

/-- Fixture value `te`: `customError(10)`, an error-capability type over int. -/
def te : GoVal :=
  GoVal.vError "spew_test.customError" RecvKind.value "error: 10" (GoVal.vInt "int" 10)

/-- Heap holding the addressable fixture variables `ts` and `tps`. -/
def heapS : Heap := [(1, ts), (2, tps)]

/-- Reference to the fixture variable `ts`. -/
def ptrTs : GoVal := GoVal.vPtr "*spew_test.stringer" 1

/-- Reference to the fixture variable `tps`. -/
def ptrTps : GoVal := GoVal.vPtr "*spew_test.pstringer" 2

/-- Fixture value `dt`: the `depthTester` struct with a struct, an array, a
slice and a map field. -/
def dt : GoVal :=
  GoVal.vStruct "spew_test.depthTester"
    [("ic", GoVal.vStruct "spew_test.indirCir1" [("c2", GoVal.vNilPtr "*spew_test.indirCir2")]),
     ("arr", GoVal.vArray "string" [GoVal.vString "arr"]),
     ("slice", GoVal.vSlice "string" 1 [GoVal.vString "slice"]),
     ("m", GoVal.vMap "string" "int" [(GoVal.vString "one", GoVal.vInt "int" 1)])]

/-- Heap of the example program's cyclic list: the head's `Prev` field points
back at the head itself. -/
def cycHeap : Heap :=
  [(1, GoVal.vStruct "main.List" [("Prev", GoVal.vPtr "*main.List" 1)])]

/-- The example program's root value: a pointer to the cyclic list head. -/
def cycRoot : GoVal := GoVal.vPtr "*main.List" 1

theorem msizeL_lt {v : GoVal} {l : List GoVal} (h : v ∈ l) : msize v < msizeL l := by
  induction l with
  | nil => cases h
  | cons a t ih =>
    rcases List.mem_cons.mp h with h1 | h2
    · subst h1; simp only [msizeL]; omega
    · have := ih h2; simp only [msizeL]; omega

theorem msizeP_lt1 {p : GoVal × GoVal} {l : List (GoVal × GoVal)} (h : p ∈ l) :
    msize p.1 < msizeP l := by
  induction l with
  | nil => cases h
  | cons a t ih =>
    obtain ⟨x, y⟩ := a
    rcases List.mem_cons.mp h with h1 | h2
    · subst h1; simp only [msizeP]; omega
    · have := ih h2; simp only [msizeP]; omega

theorem msizeP_lt2 {p : GoVal × GoVal} {l : List (GoVal × GoVal)} (h : p ∈ l) :
    msize p.2 < msizeP l := by
  induction l with
  | nil => cases h
  | cons a t ih =>
    obtain ⟨x, y⟩ := a
    rcases List.mem_cons.mp h with h1 | h2
    · subst h1; simp only [msizeP]; omega
    · have := ih h2; simp only [msizeP]; omega

theorem msizeF_lt {f : String × GoVal} {l : List (String × GoVal)} (h : f ∈ l) :
    msize f.2 < msizeF l := by
  induction l with
  | nil => cases h
  | cons a t ih =>
    obtain ⟨x, y⟩ := a
    rcases List.mem_cons.mp h with h1 | h2
    · subst h1; simp only [msizeF]; omega
    · have := ih h2; simp only [msizeF]; omega

theorem heapRest_mono (heap : Heap) (a : Nat) (vis : List Nat) :
    heapRest heap (a :: vis) ≤ heapRest heap vis := by
  induction heap with
  | nil => simp [heapRest]
  | cons e t ih =>
    obtain ⟨b, w⟩ := e
    simp only [heapRest]
    by_cases hb : b ∈ vis
    · have hb2 : b ∈ a :: vis := List.mem_cons_of_mem _ hb
      simp only [if_pos hb, if_pos hb2]
      omega
    · by_cases hba : b = a
      · subst hba
        have hb2 : b ∈ b :: vis := List.mem_cons_self _ _
        simp only [if_pos hb2, if_neg hb]
        omega
      · have hb2 : ¬ b ∈ a :: vis := by
          simp only [List.mem_cons]
          push_neg
          exact ⟨hba, hb⟩
        simp only [if_neg hb2, if_neg hb]
        omega

theorem heapRest_deref {heap : Heap} {a : Nat} {vis : List Nat} {hv : GoVal}
    (ha : a ∉ vis) (hl : lookupHeap heap a = some hv) :
    heapRest heap (a :: vis) + 1 + msize hv ≤ heapRest heap vis := by
  induction heap with
  | nil => simp [lookupHeap] at hl
  | cons e t ih =>
    obtain ⟨b, w⟩ := e
    simp only [lookupHeap] at hl
    by_cases hba : b = a
    · subst hba
      rw [if_pos rfl] at hl
      have hw : w = hv := by injection hl
      subst hw
      simp only [heapRest]
      have hmono := heapRest_mono t b vis
      have h1 : b ∈ b :: vis := List.mem_cons_self _ _
      simp only [if_pos h1, if_neg ha]
      omega
    · rw [if_neg hba] at hl
      have := ih hl
      simp only [heapRest]
      by_cases hb : b ∈ vis
      · have hb2 : b ∈ a :: vis := List.mem_cons_of_mem _ hb
        simp only [if_pos hb, if_pos hb2]
        omega
      · have hb2 : ¬ b ∈ a :: vis := by
          simp only [List.mem_cons]
          push_neg
          exact ⟨hba, hb⟩
        simp only [if_neg hb2, if_neg hb]
        omega

theorem optMap_congr {α β : Type} {c : Prop} [Decidable c] {l : List α} {f g : α → β}
    (h : ∀ e ∈ l, f e = g e) :
    (if c then none else some (l.map f)) = (if c then none else some (l.map g)) := by
  by_cases hc : c
  · simp only [if_pos hc]
  · simp only [if_neg hc]
    exact congrArg some (List.map_congr_left h)

theorem dumpF_stable :
    ∀ n m cfg heap vis depth md v,
      msize v + heapRest heap vis < n → msize v + heapRest heap vis < m →
      dumpF n cfg heap vis depth md v = dumpF m cfg heap vis depth md v := by
  intro n
  induction n using Nat.strong_induction_on with
  | _ n IH =>
    intro m cfg heap vis depth md v hn hm
    match n, m with
    | 0, _ => omega
    | _ + 1, 0 => omega
    | n1 + 1, m1 + 1 =>
      cases v with
      | vBool b => rfl
      | vInt t i => rfl
      | vUInt t u => rfl
      | vFloat t l => rfl
      | vComplex t l => rfl
      | vString s => rfl
      | vNilPtr t => rfl
      | vSlice t c es =>
        have hs : msize (GoVal.vSlice t c es) = 1 + msizeL es := rfl
        rw [hs] at hn hm
        simp only [dumpF]
        apply congrArg
        apply optMap_congr
        intro e he
        have h1 := msizeL_lt he
        exact IH n1 (by omega) m1 cfg heap vis (depth + 1) DMode.full e (by omega) (by omega)
      | vArray t es =>
        have hs : msize (GoVal.vArray t es) = 1 + msizeL es := rfl
        rw [hs] at hn hm
        simp only [dumpF]
        apply congrArg
        apply optMap_congr
        intro e he
        have h1 := msizeL_lt he
        exact IH n1 (by omega) m1 cfg heap vis (depth + 1) DMode.full e (by omega) (by omega)
      | vMap kt vt ps =>
        have hs : msize (GoVal.vMap kt vt ps) = 1 + msizeP ps := rfl
        rw [hs] at hn hm
        simp only [dumpF]
        apply congrArg
        apply optMap_congr
        intro p hp
        have h1 := msizeP_lt1 hp
        have h2 := msizeP_lt2 hp
        rw [IH n1 (by omega) m1 cfg heap vis (depth + 1) DMode.full p.1 (by omega) (by omega),
           IH n1 (by omega) m1 cfg heap vis (depth + 1) DMode.full p.2 (by omega) (by omega)]
      | vStruct t fs =>
        have hs : msize (GoVal.vStruct t fs) = 1 + msizeF fs := rfl
        rw [hs] at hn hm
        simp only [dumpF]
        apply congrArg
        apply congrArg
        apply optMap_congr
        intro f hf
        have h1 := msizeF_lt hf
        rw [IH n1 (by omega) m1 cfg heap vis (depth + 1) DMode.full f.2 (by omega) (by omega)]
      | vPtr t a =>
        have hs : msize (GoVal.vPtr t a) = 1 := rfl
        rw [hs] at hn hm
        simp only [dumpF]
        apply congrArg
        by_cases hv : a ∈ vis
        · rw [if_pos hv, if_pos hv]
        · rw [if_neg hv, if_neg hv]
          cases hl : lookupHeap heap a with
          | none => rfl
          | some hv2 =>
            have hd := heapRest_deref hv hl
            exact IH n1 (by omega) m1 cfg heap (a :: vis) depth DMode.inner hv2
              (by omega) (by omega)
      | vStringer t r out u =>
        have hs : msize (GoVal.vStringer t r out u) = 1 + msize u := rfl
        rw [hs] at hn hm
        simp only [dumpF]
        apply congrArg
        exact IH n1 (by omega) m1 cfg heap vis depth DMode.body u (by omega) (by omega)
      | vError t r out u =>
        have hs : msize (GoVal.vError t r out u) = 1 + msize u := rfl
        rw [hs] at hn hm
        simp only [dumpF]
        apply congrArg
        exact IH n1 (by omega) m1 cfg heap vis depth DMode.body u (by omega) (by omega)

theorem formatF_stable :
    ∀ n m cfg vb heap vis depth vp v,
      msize v + heapRest heap vis < n → msize v + heapRest heap vis < m →
      formatF n cfg vb heap vis depth vp v = formatF m cfg vb heap vis depth vp v := by
  intro n
  induction n using Nat.strong_induction_on with
  | _ n IH =>
    intro m cfg vb heap vis depth vp v hn hm
    match n, m with
    | 0, _ => omega
    | _ + 1, 0 => omega
    | n1 + 1, m1 + 1 =>
      cases v with
      | vBool b => rfl
      | vInt t i => rfl
      | vUInt t u => rfl
      | vFloat t l => rfl
      | vComplex t l => rfl
      | vString s => rfl
      | vNilPtr t => rfl
      | vSlice t c es =>
        have hs : msize (GoVal.vSlice t c es) = 1 + msizeL es := rfl
        rw [hs] at hn hm
        have hopt :
            (if maxExceeded cfg depth = true then none else
              some (es.map (fun e => formatF n1 cfg vb heap vis (depth + 1) false e))) =
            (if maxExceeded cfg depth = true then none else
              some (es.map (fun e => formatF m1 cfg vb heap vis (depth + 1) false e))) := by
          apply optMap_congr
          intro e he
          have h1 := msizeL_lt he
          exact IH n1 (by omega) m1 cfg vb heap vis (depth + 1) false e (by omega) (by omega)
        simp only [formatF]
        rw [hopt]
      | vArray t es =>
        have hs : msize (GoVal.vArray t es) = 1 + msizeL es := rfl
        rw [hs] at hn hm
        have hopt :
            (if maxExceeded cfg depth = true then none else
              some (es.map (fun e => formatF n1 cfg vb heap vis (depth + 1) false e))) =
            (if maxExceeded cfg depth = true then none else
              some (es.map (fun e => formatF m1 cfg vb heap vis (depth + 1) false e))) := by
          apply optMap_congr
          intro e he
          have h1 := msizeL_lt he
          exact IH n1 (by omega) m1 cfg vb heap vis (depth + 1) false e (by omega) (by omega)
        simp only [formatF]
        rw [hopt]
      | vMap kt vt ps =>
        have hs : msize (GoVal.vMap kt vt ps) = 1 + msizeP ps := rfl
        rw [hs] at hn hm
        have hopt :
            (if maxExceeded cfg depth = true then none else
              some (ps.map (fun p =>
                formatF n1 cfg vb heap vis (depth + 1) false p.1 ++ ":" ++
                formatF n1 cfg vb heap vis (depth + 1) false p.2))) =
            (if maxExceeded cfg depth = true then none else
              some (ps.map (fun p =>
                formatF m1 cfg vb heap vis (depth + 1) false p.1 ++ ":" ++
                formatF m1 cfg vb heap vis (depth + 1) false p.2))) := by
          apply optMap_congr
          intro p hp
          have h1 := msizeP_lt1 hp
          have h2 := msizeP_lt2 hp
          rw [IH n1 (by omega) m1 cfg vb heap vis (depth + 1) false p.1 (by omega) (by omega),
             IH n1 (by omega) m1 cfg vb heap vis (depth + 1) false p.2 (by omega) (by omega)]
        simp only [formatF]
        rw [hopt]
      | vStruct t fs =>
        have hs : msize (GoVal.vStruct t fs) = 1 + msizeF fs := rfl
        rw [hs] at hn hm
        have hopt :
            (if maxExceeded cfg depth = true then none else
              some (fs.map (fun f =>
                (if (vb.plus || vb.hash) = true then f.1 ++ ":" else "") ++
                formatF n1 cfg vb heap vis (depth + 1) false f.2))) =
            (if maxExceeded cfg depth = true then none else
              some (fs.map (fun f =>
                (if (vb.plus || vb.hash) = true then f.1 ++ ":" else "") ++
                formatF m1 cfg vb heap vis (depth + 1) false f.2))) := by
          apply optMap_congr
          intro f hf
          have h1 := msizeF_lt hf
          rw [IH n1 (by omega) m1 cfg vb heap vis (depth + 1) false f.2 (by omega) (by omega)]
        simp only [formatF]
        rw [hopt]
      | vPtr t a =>
        have hs : msize (GoVal.vPtr t a) = 1 := rfl
        rw [hs] at hn hm
        simp only [formatF]
        apply congrArg
        by_cases hv : a ∈ vis
        · rw [if_pos hv, if_pos hv]
        · rw [if_neg hv, if_neg hv]
          cases hl : lookupHeap heap a with
          | none => rfl
          | some hv2 =>
            have hd := heapRest_deref hv hl
            exact IH n1 (by omega) m1 cfg vb heap (a :: vis) depth true hv2
              (by omega) (by omega)
      | vStringer t r out u =>
        have hs : msize (GoVal.vStringer t r out u) = 1 + msize u := rfl
        rw [hs] at hn hm
        simp only [formatF]
        apply congrArg
        exact IH n1 (by omega) m1 cfg vb heap vis depth false u (by omega) (by omega)
      | vError t r out u =>
        have hs : msize (GoVal.vError t r out u) = 1 + msize u := rfl
        rw [hs] at hn hm
        simp only [formatF]
        apply congrArg
        exact IH n1 (by omega) m1 cfg vb heap vis depth false u (by omega) (by omega)

set_option maxRecDepth 8000

theorem maxExceeded_zero (cfg : Config) : maxExceeded cfg 0 = false := by
  simp only [maxExceeded, decide_eq_false_iff_not]
  omega

/-- C1: for every signed or unsigned integer, float, boolean, or complex scalar
value `v` whose declared type is named `T`, dump of `v` under the default
configuration returns exactly `"(T) "` followed by the canonical literal
spelling of `v` followed by a single newline. -/
theorem spew_c1_scalar_dump (v : GoVal) (h : isScalar v = true) :
    Sdump defaultConfig [] v = "(" ++ typeName v ++ ") " ++ scalarLit v ++ "\n" := by
  cases v with
  | vBool b =>
    cases b <;> rfl
  | vInt t i =>
    simp [Sdump, topFuel, heapRest, msize, dumpF, dPre, typeName, lenCapAnn, scalarLit,
      defaultConfig, lenOf, capOf, String.append_empty, String.append_assoc]
  | vUInt t u =>
    simp [Sdump, topFuel, heapRest, msize, dumpF, dPre, typeName, lenCapAnn, scalarLit,
      defaultConfig, lenOf, capOf, String.append_empty, String.append_assoc]
  | vFloat t l =>
    simp [Sdump, topFuel, heapRest, msize, dumpF, dPre, typeName, lenCapAnn, scalarLit,
      defaultConfig, lenOf, capOf, String.append_empty, String.append_assoc]
  | vComplex t l =>
    simp [Sdump, topFuel, heapRest, msize, dumpF, dPre, typeName, lenCapAnn, scalarLit,
      defaultConfig, lenOf, capOf, String.append_empty, String.append_assoc]
  | vString s => simp [isScalar] at h
  | vSlice t c es => simp [isScalar] at h
  | vArray t es => simp [isScalar] at h
  | vMap kt vt ps => simp [isScalar] at h
  | vStruct t fs => simp [isScalar] at h
  | vPtr t a => simp [isScalar] at h
  | vNilPtr t => simp [isScalar] at h
  | vStringer t r out u => simp [isScalar] at h
  | vError t r out u => simp [isScalar] at h

/-- C1 witness: the fixture scalar `int8(127)` dumps as `"(int8) 127\n"`. -/
theorem spew_c1_scalar_dump_witness :
    isScalar (GoVal.vInt "int8" 127) = true ∧
    Sdump defaultConfig [] (GoVal.vInt "int8" 127) = "(int8) 127\n" :=
  ⟨rfl, by rw [spew_c1_scalar_dump (GoVal.vInt "int8" 127) rfl]; rfl⟩

/-- C2 counterexample: under the DEFAULT configuration, dump of a string
sequence with length 0 and capacity 10 carries a "(cap=10)" annotation, so it
is not the claimed `"([]T) {\n}\n"` (that output belongs to the
DisableCapacities fixture configuration). -/
theorem spew_c2_counterexample :
    Sdump defaultConfig [] (GoVal.vSlice "string" 10 []) =
      "([]string) (cap=10) \x7b\n\x7d\n" ∧
    Sdump defaultConfig [] (GoVal.vSlice "string" 10 []) ≠ "([]string) \x7b\n\x7d\n" := by
  exact ⟨rfl, by decide⟩

/-- C2 amended: with DisableCapacities set, dump of a length-0 capacity-10
sequence is exactly `"([]T) {\n}\n"`; under the default configuration the same
value dumps with a "(cap=10)" annotation, and a length-1 capacity-10 string
sequence dumps with the annotation "(len=1 cap=10)" — the annotated length
equals the actual length; the capacity annotation appears iff
DisableCapacities is false and the capacity is nonzero. -/
theorem spew_c2_amended :
    (∀ t : String, Sdump cfgNoCap [] (GoVal.vSlice t 10 []) =
        "(" ++ ("[]" ++ t) ++ ") \x7b\n\x7d\n") ∧
    Sdump defaultConfig [] (GoVal.vSlice "string" 10 []) =
      "([]string) (cap=10) \x7b\n\x7d\n" ∧
    Sdump defaultConfig [] (GoVal.vSlice "string" 10 [GoVal.vString ""]) =
      "([]string) (len=1 cap=10) \x7b\n (string) \"\"\n\x7d\n" ∧
    (∀ cfg : Config, ∀ len cap : Nat, cfg.disableCapacities = true ∨ cap = 0 →
        lenCapAnn cfg len cap =
          (if len = 0 then "" else "(" ++ ("len=" ++ toString len) ++ ") ")) ∧
    (∀ cfg : Config, ∀ len cap : Nat, cfg.disableCapacities = false → cap ≠ 0 →
        ∃ pre, lenCapAnn cfg len cap = pre ++ ("cap=" ++ toString cap) ++ ") ") := by
  refine ⟨?_, rfl, rfl, ?_, ?_⟩
  · intro t
    simp [Sdump, topFuel, heapRest, msize, msizeL, dumpF, dumpSeq, dPre, typeName,
      lenCapAnn, lenOf, capOf, cfgNoCap, maxExceeded, braceBlock, joinItems, indentN,
      String.append_empty, String.append_assoc]
  · intro cfg len cap h
    by_cases hl : len = 0
    · subst hl
      simp [lenCapAnn, h]
    · rcases h with h | h
      · simp [lenCapAnn, hl, h, String.append_empty, String.append_assoc]
      · simp [lenCapAnn, hl, h, String.append_empty, String.append_assoc]
  · intro cfg len cap hd hc
    by_cases hl : len = 0
    · subst hl
      refine ⟨"(", ?_⟩
      simp [lenCapAnn, hd, hc, String.append_empty, String.append_assoc]
    · refine ⟨"(" ++ ("len=" ++ toString len) ++ " ", ?_⟩
      simp [lenCapAnn, hl, hd, hc, String.append_empty, String.append_assoc]

/-- C2 witness: the amended statement applied at the fixture inputs. -/
theorem spew_c2_amended_witness :
    Sdump cfgNoCap [] (GoVal.vSlice "string" 10 []) = "([]string) \x7b\n\x7d\n" ∧
    lenCapAnn cfgNoCap 0 10 = "" ∧
    (∃ pre, lenCapAnn defaultConfig 0 10 = pre ++ ("cap=" ++ toString 10) ++ ") ") := by
  refine ⟨?_, ?_, spew_c2_amended.2.2.2.2 defaultConfig 0 10 rfl (by decide)⟩
  · rw [spew_c2_amended.1 "string"]
    rfl
  · rw [spew_c2_amended.2.2.2.1 cfgNoCap 0 10 (Or.inl rfl)]
    rfl

/-- C3: with MaxDepth 1, the depth-tester fixture renders its top level
normally in both renderers, and EVERY struct, array, sequence or mapping
reached at depth 1 renders its body as exactly the fixed truncation marker:
"<max>" in compact Format mode, "<max depth reached>" (on its own indented
line) in Dump mode, with the value's normal annotations kept. -/
theorem spew_c3_maxdepth :
    SprintV cfgMaxDepth [] dt = "\x7b\x7b<max>\x7d [<max>] [<max>] map[<max>]\x7d" ∧
    Sdump cfgMaxDepth [] dt =
      "(spew_test.depthTester) \x7b\n ic: (spew_test.indirCir1) \x7b\n  <max depth reached>\n \x7d,\n arr: ([1]string) (len=1 cap=1) \x7b\n  <max depth reached>\n \x7d,\n slice: ([]string) (len=1 cap=1) \x7b\n  <max depth reached>\n \x7d,\n m: (map[string]int) (len=1) \x7b\n  <max depth reached>\n \x7d\n\x7d\n" ∧
    (∀ n heap vis vp t fs,
      formatF (n + 1) cfgMaxDepth plainVerb heap vis 1 vp (GoVal.vStruct t fs) =
        "\x7b<max>\x7d") ∧
    (∀ n heap vis vp t c es,
      formatF (n + 1) cfgMaxDepth plainVerb heap vis 1 vp (GoVal.vSlice t c es) =
        "[<max>]") ∧
    (∀ n heap vis vp t es,
      formatF (n + 1) cfgMaxDepth plainVerb heap vis 1 vp (GoVal.vArray t es) =
        "[<max>]") ∧
    (∀ n heap vis vp kt vt ps,
      formatF (n + 1) cfgMaxDepth plainVerb heap vis 1 vp (GoVal.vMap kt vt ps) =
        "map[<max>]") ∧
    (∀ n heap vis md t fs,
      dumpF (n + 1) cfgMaxDepth heap vis 1 md (GoVal.vStruct t fs) =
        dPre cfgMaxDepth md (GoVal.vStruct t fs) ++
          "\x7b\n  <max depth reached>\n \x7d") ∧
    (∀ n heap vis md t c es,
      dumpF (n + 1) cfgMaxDepth heap vis 1 md (GoVal.vSlice t c es) =
        dPre cfgMaxDepth md (GoVal.vSlice t c es) ++
          "\x7b\n  <max depth reached>\n \x7d") ∧
    (∀ n heap vis md t es,
      dumpF (n + 1) cfgMaxDepth heap vis 1 md (GoVal.vArray t es) =
        dPre cfgMaxDepth md (GoVal.vArray t es) ++
          "\x7b\n  <max depth reached>\n \x7d") ∧
    (∀ n heap vis md kt vt ps,
      dumpF (n + 1) cfgMaxDepth heap vis 1 md (GoVal.vMap kt vt ps) =
        dPre cfgMaxDepth md (GoVal.vMap kt vt ps) ++
          "\x7b\n  <max depth reached>\n \x7d") := by
  refine ⟨rfl, rfl, ?_, ?_, ?_, ?_, ?_, ?_, ?_, ?_⟩
  · intro n heap vis vp t fs
    rfl
  · intro n heap vis vp t c es
    rfl
  · intro n heap vis vp t es
    rfl
  · intro n heap vis vp kt vt ps
    rfl
  · intro n heap vis md t fs
    rfl
  · intro n heap vis md t c es
    rfl
  · intro n heap vis md t es
    rfl
  · intro n heap vis md kt vt ps
    rfl

/-- C4: for every heap, configuration and value the Dump and Format renderers
reach a fixed point once the fuel exceeds the termination measure (the
recursion needs only finitely many steps, so every call terminates with a
finite output); re-entering an identity that is already on the visited stack
renders exactly the back-reference marker instead of recursing; and on the
example program's cyclic list both renderers produce output containing their
back-reference marker. -/
theorem spew_c4_cycle_termination :
    (∀ n m cfg heap vis depth md v,
      msize v + heapRest heap vis < n → msize v + heapRest heap vis < m →
      dumpF n cfg heap vis depth md v = dumpF m cfg heap vis depth md v) ∧
    (∀ n m cfg vb heap vis depth vp v,
      msize v + heapRest heap vis < n → msize v + heapRest heap vis < m →
      formatF n cfg vb heap vis depth vp v = formatF m cfg vb heap vis depth vp v) ∧
    (∀ n cfg heap vis depth md t a, a ∈ vis →
      dumpF (n + 1) cfg heap vis depth md (GoVal.vPtr t a) =
        dumpPtrWrap cfg t a dumpCycleMarker) ∧
    (∀ n cfg vb heap vis depth vp t a, a ∈ vis →
      formatF (n + 1) cfg vb heap vis depth vp (GoVal.vPtr t a) =
        "<*>" ++ fmtCycleMarker) ∧
    containsSub (Sdump defaultConfig cycHeap cycRoot) dumpCycleMarker = true ∧
    containsSub (SprintV defaultConfig cycHeap cycRoot) fmtCycleMarker = true := by
  refine ⟨dumpF_stable, formatF_stable, ?_, ?_, by decide, by decide⟩
  · intro n cfg heap vis depth md t a ha
    simp only [dumpF]
    rw [if_pos ha]
  · intro n cfg vb heap vis depth vp t a ha
    simp only [formatF]
    rw [if_pos ha]

/-- C4 witness: the stability and re-entry parts applied at the cyclic example
with concrete fuel. -/
theorem spew_c4_cycle_termination_witness :
    dumpF 40 defaultConfig cycHeap [] 0 DMode.full cycRoot =
      dumpF 50 defaultConfig cycHeap [] 0 DMode.full cycRoot ∧
    formatF 40 defaultConfig plainVerb cycHeap [] 0 false cycRoot =
      formatF 50 defaultConfig plainVerb cycHeap [] 0 false cycRoot ∧
    dumpF 5 defaultConfig cycHeap [(1 : Nat)] 1 DMode.full (GoVal.vPtr "*main.List" 1) =
      dumpPtrWrap defaultConfig "*main.List" 1 dumpCycleMarker ∧
    formatF 5 defaultConfig plainVerb cycHeap [(1 : Nat)] 1 false (GoVal.vPtr "*main.List" 1) =
      "<*>" ++ fmtCycleMarker :=
  ⟨spew_c4_cycle_termination.1 40 50 defaultConfig cycHeap [] 0 DMode.full cycRoot
      (by decide) (by decide),
   spew_c4_cycle_termination.2.1 40 50 defaultConfig plainVerb cycHeap [] 0 false cycRoot
      (by decide) (by decide),
   spew_c4_cycle_termination.2.2.1 4 defaultConfig cycHeap [1] 1 DMode.full "*main.List" 1
      (by decide),
   spew_c4_cycle_termination.2.2.2.1 4 defaultConfig plainVerb cycHeap [1] 1 false
      "*main.List" 1 (by decide)⟩

/-- C5: a value-receiver stringification capability is used for the value and
for a reference to it when DisablePointerMethods and DisableMethods are both
unset; with DisableMethods set, both the value and the reference render
structurally with none of the capability's text; a pointer-receiver-only
capability applies through the reference but not to the bare non-addressable
value; and the fixture rows of the NoMethods and NoPmethods configurations. -/
theorem spew_c5_method_precedence :
    (∀ t out s, SprintV defaultConfig []
        (GoVal.vStringer t RecvKind.value out (GoVal.vString s)) = out) ∧
    (∀ pt t out s, SprintV defaultConfig
        [(1, GoVal.vStringer t RecvKind.value out (GoVal.vString s))]
        (GoVal.vPtr pt 1) = "<*>" ++ out) ∧
    (∀ t r out s, SprintV cfgNoMethods []
        (GoVal.vStringer t r out (GoVal.vString s)) = s) ∧
    (∀ pt t r out s, SprintV cfgNoMethods
        [(1, GoVal.vStringer t r out (GoVal.vString s))]
        (GoVal.vPtr pt 1) = "<*>" ++ s) ∧
    (∀ t out s, SprintV defaultConfig []
        (GoVal.vStringer t RecvKind.pointer out (GoVal.vString s)) = s) ∧
    (∀ pt t out s, SprintV defaultConfig
        [(1, GoVal.vStringer t RecvKind.pointer out (GoVal.vString s))]
        (GoVal.vPtr pt 1) = "<*>" ++ out) ∧
    SprintV cfgNoPmethods heapS ts = "stringer test" ∧
    SprintV cfgNoPmethods heapS ptrTs = "<*>stringer test" ∧
    SprintV cfgNoPmethods heapS tps = "test" ∧
    SprintV cfgNoPmethods heapS ptrTps = "<*>stringer test" ∧
    SprintV cfgNoMethods heapS ts = "test" ∧
    SprintV cfgNoMethods heapS ptrTs = "<*>test" ∧
    SprintV cfgNoMethods heapS tps = "test" ∧
    SprintV cfgNoMethods heapS ptrTps = "<*>test" := by
  refine ⟨?_, ?_, ?_, ?_, ?_, ?_, rfl, rfl, rfl, rfl, rfl, rfl, rfl, rfl⟩
  · intro t out s
    rfl
  · intro pt t out s
    rfl
  · intro t r out s
    cases r <;> rfl
  · intro pt t r out s
    cases r <;> rfl
  · intro t out s
    rfl
  · intro pt t out s
    rfl

/-- C6: with continue-on-method requested, a capability value renders as the
capability output wrapped in parentheses followed by the structural rendering
(in both renderers, per the fixtures); without it the capability output fully
replaces the structural rendering. -/
theorem spew_c6_continue :
    (∀ t out s, SprintV cfgContinue []
        (GoVal.vStringer t RecvKind.value out (GoVal.vString s)) =
        "(" ++ out ++ ") " ++ s) ∧
    (∀ t tu out i, SprintV cfgContinue []
        (GoVal.vError t RecvKind.value out (GoVal.vInt tu i)) =
        "(" ++ out ++ ") " ++ toString i) ∧
    (∀ t out s, SprintV defaultConfig []
        (GoVal.vStringer t RecvKind.value out (GoVal.vString s)) = out) ∧
    (∀ t tu out i, SprintV defaultConfig []
        (GoVal.vError t RecvKind.value out (GoVal.vInt tu i)) = out) ∧
    SprintV cfgContinue [] ts = "(stringer test) test" ∧
    Sdump cfgContinue [] ts = "(spew_test.stringer) (len=4) (stringer test) \"test\"\n" ∧
    SprintV cfgContinue [] te = "(error: 10) 10" ∧
    Sdump cfgContinue [] te = "(spew_test.customError) (error: 10) 10\n" := by
  refine ⟨?_, ?_, ?_, ?_, rfl, rfl, rfl, rfl⟩
  · intro t out s
    rfl
  · intro t tu out i
    rfl
  · intro t out s
    rfl
  · intro t tu out i
    rfl

/-- C7: under the clean preset, dump of a length-1 string sequence is exactly
"[\n  \"\"\n]\n" (and in general a one-element string sequence dumps as the
quoted element on its own indented line between brackets), and plain-verb
format of an int sequence holding two zeroes is exactly "[0,0]". -/
theorem spew_c7_clean :
    Sdump CleanConfig [] (GoVal.vSlice "string" 10 [GoVal.vString ""]) =
      "[\n  \"\"\n]\n" ∧
    SprintV CleanConfig []
      (GoVal.vSlice "int" 10 [GoVal.vInt "int" 0, GoVal.vInt "int" 0]) = "[0,0]" ∧
    (∀ t s, Sdump CleanConfig [] (GoVal.vSlice t 10 [GoVal.vString s]) =
      "[\n" ++ "  " ++ quoteStr s ++ "\n" ++ "]" ++ "\n") ∧
    (∀ t ti i j, SprintV CleanConfig []
      (GoVal.vSlice t 10 [GoVal.vInt ti i, GoVal.vInt ti j]) =
      "[" ++ toString i ++ "," ++ toString j ++ "]") := by
  refine ⟨rfl, rfl, ?_, ?_⟩
  · intro t s
    simp [Sdump, topFuel, heapRest, msize, msizeL, dumpF, dumpSeq, dPre, cleanBlock,
      joinItems, indentN, CleanConfig, maxExceeded, quoteStr,
      String.append_empty, String.append_assoc]
    rfl
  · intro t ti i j
    have e1 : SprintV CleanConfig []
        (GoVal.vSlice t 10 [GoVal.vInt ti i, GoVal.vInt ti j]) =
        ("[" ++ ((toString i ++ ",") ++ toString j)) ++ "]" := rfl
    rw [e1]
    simp [String.append_assoc]

/-- C8: rendering is pure: a top-level dump or format call started from any
residual engine state produces the same output as from any other (each call
creates a fresh visited set and depth counter), and that output is the one of
the stateless entry points; the configuration is never modified (it is an
immutable value). -/
theorem spew_c8_idempotent (s1 s2 : EngineState) (cfg : Config) (heap : Heap)
    (v : GoVal) :
    (SdumpCall s1 cfg heap v).1 = (SdumpCall s2 cfg heap v).1 ∧
    (SdumpCall s1 cfg heap v).1 = Sdump cfg heap v ∧
    (SdumpCall s1 cfg heap v).2 = freshState ∧
    (SprintCall s1 cfg heap v).1 = (SprintCall s2 cfg heap v).1 ∧
    (SprintCall s1 cfg heap v).1 = SprintV cfg heap v ∧
    (SprintCall s1 cfg heap v).2 = freshState :=
  ⟨rfl, rfl, rfl, rfl, rfl, rfl⟩

/-- C9 counterexample: under the clean preset (still Dump mode), a sequence of
length 2 dumps with no "len=" annotation at all, refuting the claim that every
sequence of length at least 1 carries a "(len=N)" annotation in Dump mode. -/
theorem spew_c9_counterexample :
    lenOf (GoVal.vSlice "string" 10 [GoVal.vString "", GoVal.vString ""]) = 2 ∧
    containsSub
      (Sdump CleanConfig [] (GoVal.vSlice "string" 10 [GoVal.vString "", GoVal.vString ""]))
      "len=" = false :=
  ⟨rfl, by decide⟩

/-- C9 amended: in Dump mode a sequence of length 0 carries no size annotation
at all — under a non-clean configuration with capacities suppressed (or zero
capacity) it dumps as exactly "([]T) {\n}\n", and under the clean preset as
"[]\n"; a sequence of length at least 1 carries a "(len=N)" annotation (N the
actual length) under non-clean configurations, while the clean style drops
size annotations entirely. -/
theorem spew_c9_amended :
    (∀ (cfg : Config) (t : String) (c : Nat), cfg.clean = false →
        cfg.disableCapacities = true ∨ c = 0 →
        Sdump cfg [] (GoVal.vSlice t c []) = "(" ++ ("[]" ++ t) ++ ") \x7b\n\x7d\n") ∧
    (∀ (t : String) (c : Nat), Sdump CleanConfig [] (GoVal.vSlice t c []) = "[]\n") ∧
    (∀ (cfg : Config) (len cap : Nat), len ≠ 0 →
        ∃ rest, lenCapAnn cfg len cap = "(" ++ ("len=" ++ toString len) ++ rest) ∧
    (∀ (cfg : Config) (cap : Nat), cfg.disableCapacities = true ∨ cap = 0 →
        lenCapAnn cfg 0 cap = "") ∧
    containsSub (Sdump cfgNoCap [] (GoVal.vSlice "string" 10 [GoVal.vString ""]))
      "(len=1)" = true ∧
    containsSub (Sdump defaultConfig [] (GoVal.vSlice "string" 10 [GoVal.vString ""]))
      "(len=1 cap=10)" = true := by
  refine ⟨?_, ?_, ?_, ?_, by decide, by decide⟩
  · intro cfg t c hclean hcap
    have hme := maxExceeded_zero cfg
    simp [Sdump, topFuel, heapRest, msize, msizeL, dumpF, dumpSeq, dPre, typeName,
      lenCapAnn, lenOf, capOf, hclean, hme, braceBlock, joinItems, indentN,
      String.append_empty, String.append_assoc]
    rcases hcap with h | h <;> simp [h]
  · intro t c
    rfl
  · intro cfg len cap hl
    by_cases hd : cfg.disableCapacities = true
    · refine ⟨") ", ?_⟩
      simp [lenCapAnn, hl, hd, String.append_empty, String.append_assoc]
    · have hd2 : cfg.disableCapacities = false := by
        cases h : cfg.disableCapacities
        · rfl
        · exact absurd h hd
      by_cases hc : cap = 0
      · refine ⟨") ", ?_⟩
        simp [lenCapAnn, hl, hd2, hc, String.append_empty, String.append_assoc]
      · refine ⟨" " ++ ("cap=" ++ toString cap) ++ ") ", ?_⟩
        simp [lenCapAnn, hl, hd2, hc, String.append_empty, String.append_assoc]
  · intro cfg cap h
    rcases h with h | h <;> simp [lenCapAnn, h]

/-- C9 witness: the amended statement applied at the fixture inputs. -/
theorem spew_c9_amended_witness :
    Sdump cfgNoCap [] (GoVal.vSlice "string" 10 []) = "([]string) \x7b\n\x7d\n" ∧
    (∃ rest, lenCapAnn defaultConfig 1 1 = "(" ++ ("len=" ++ toString 1) ++ rest) ∧
    lenCapAnn defaultConfig 0 0 = "" := by
  refine ⟨?_, spew_c9_amended.2.2.1 defaultConfig 1 1 (by decide), ?_⟩
  · rw [spew_c9_amended.1 cfgNoCap "string" 10 rfl (Or.inl rfl)]
    rfl
  · rw [spew_c9_amended.2.2.2.1 defaultConfig 0 (Or.inr rfl)]

/-- C10: for every format string and argument list, Errorf returns a non-nil
error whose message equals the string Sprintf returns on the same format
string and arguments: both pass the identically converted argument list to
the host formatting facility. -/
theorem spew_c10_errorf (heap : Heap) (f : String) (a : List GoVal) :
    (Errorf defaultConfig heap f a).isSome = true ∧
    Option.map GoError.msg (Errorf defaultConfig heap f a) =
      some (Sprintf defaultConfig heap f a) ∧
    Errorf defaultConfig heap f a =
      some ⟨hostSprintf f (convertArgs defaultConfig heap a)⟩ ∧
    Sprintf defaultConfig heap f a =
      hostSprintf f (convertArgs defaultConfig heap a) ∧
    Option.map GoError.msg (Errorf defaultConfig [] "%#v" [GoVal.vUInt "uint16" 65535]) =
      some "(uint16)65535" ∧
    Sprintf defaultConfig [] "%v" [GoVal.vUInt "uint64" 18446744073709551615] =
      "18446744073709551615" :=
  ⟨rfl, rfl, rfl, rfl, by decide, by decide⟩
